import Mathlib

open scoped Classical

noncomputable section

/-! Shallow embedding of heston.py, the Heston model pricing and simulation
engine. Machine floats are modelled by real numbers; external collaborators
(scipy quadrature, the modified Bessel function, finite-difference
differentiation, the Brent root finder, and random-variate realizations) are
modelled as explicit oracle parameters, while every formula of the source is
transcribed literally. -/

/-- The dataclass Heston of heston.py (lines 53-86): a plain record of the
seven parameters. The generated constructor stores the fields verbatim and
performs no validation. -/
structure Heston where
  s : ℝ
  v : ℝ
  kappa : ℝ
  theta : ℝ
  sigma : ℝ
  rho : ℝ
  r : ℝ

/-- The documented range constraints on the parameters (docstring of Heston,
lines 62-64): s>0, v>=0, kappa>0, theta>0, sigma>0, -1<rho<1. -/
def hestonParamsValid (M : Heston) : Prop :=
  0 < M.s ∧ 0 ≤ M.v ∧ 0 < M.kappa ∧ 0 < M.theta ∧ 0 < M.sigma ∧
    -1 < M.rho ∧ M.rho < 1

/-- Modelled from the spec (comparison definition for claim C1): a constructor
that fails (returns none) whenever a range constraint is violated. The source
dataclass performs no such check. -/
def mkHestonChecked (s v kappa theta sigma rho r : ℝ) : Option Heston :=
  if hestonParamsValid ⟨s, v, kappa, theta, sigma, rho, r⟩ then
    some ⟨s, v, kappa, theta, sigma, rho, r⟩
  else none

/-- The heston_cf function (heston.py lines 21-32): characteristic function of
the log-price in the stable parameterization. cmath.sqrt z is the principal
branch, embedded as z to the complex power 1/2; cmath.log and cmath.exp are
the principal complex logarithm and exponential. -/
def heston_cf (s v kappa theta sigma rho : ℝ) (u : ℂ) (t : ℝ) : ℂ :=
  let d : ℂ := (((rho : ℂ)*(sigma : ℂ)*u*Complex.I - (kappa : ℂ))^2 +
    (sigma : ℂ)^2*(u*Complex.I + u^2)) ^ ((1 : ℂ)/2)
  let g : ℂ := ((rho : ℂ)*(sigma : ℂ)*u*Complex.I - (kappa : ℂ) + d) /
    ((rho : ℂ)*(sigma : ℂ)*u*Complex.I - (kappa : ℂ) - d)
  let C : ℂ := (kappa : ℂ)*(theta : ℂ)/(sigma : ℂ)^2 *
    ((t : ℂ)*((kappa : ℂ) - (rho : ℂ)*(sigma : ℂ)*u*Complex.I - d) -
      2*Complex.log ((1 - g*Complex.exp (-d*(t : ℂ)))/(1 - g)))
  let D : ℂ := ((kappa : ℂ) - (rho : ℂ)*(sigma : ℂ)*u*Complex.I - d)/(sigma : ℂ)^2 *
    ((1 - Complex.exp (-d*(t : ℂ))) / (1 - g*Complex.exp (-d*(t : ℂ))))
  Complex.exp (C + D*(v : ℂ) + u*(Real.log s : ℂ)*Complex.I)

/-- The heston_integrand function (lines 35-50), as the pure real function of
the frequency u, the contract (t,k) and the model parameters which the
quadrature integrates over u in [0, infinity). -/
def heston_integrand (s v kappa theta sigma rho t k u : ℝ) : ℝ :=
  (Complex.exp (-Complex.I*(u : ℂ)*(Real.log k : ℂ))/(Complex.I*(u : ℂ)) *
    (heston_cf s v kappa theta sigma rho ((u : ℂ) - Complex.I) t -
      (k : ℂ)*heston_cf s v kappa theta sigma rho (u : ℂ) t)).re

/-- Outcome of scipy.integrate.quad: the pair (value, estimated absolute
error). quad reports non-convergence only through the size of abserr and a
warning; it raises no exception by default. -/
structure QuadResult where
  val : ℝ
  abserr : ℝ

/-- The method call_price_scalar (lines 88-100). The quadrature outcome for
the improper integral of heston_integrand is the oracle argument q; the
source uses only index [0] of the quad result (the value q.val) and never
inspects q.abserr. -/
def call_price_scalar (M : Heston) (t k : ℝ) (q : QuadResult) : ℝ :=
  0.5*(M.s - Real.exp (-M.r*t)*k) + 1/Real.pi * Real.exp (-M.r*t) * q.val

/-- Modelled from the spec (comparison definition for claim C4): a pricing
routine that surfaces a computation error carrying the residual error
estimate whenever the quadrature did not converge to the requested
tolerance. -/
def callPriceChecked (M : Heston) (t k tol : ℝ) (q : QuadResult) : Except ℝ ℝ :=
  if q.abserr ≤ tol then Except.ok (call_price_scalar M t k q)
  else Except.error q.abserr

/-- The variance grid of simulate_euler (lines 247-251). Z0 is the realization
grid of the first standard-normal family Z[0]; paths are independent, so the
grid recursion is per (step, path). -/
def eulerV (M : Heston) (dt : ℝ) (Z0 : ℕ → ℕ → ℝ) : ℕ → ℕ → ℝ
  | 0, _ => M.v
  | i+1, j =>
    let Vi := eulerV M dt Z0 i j
    let Vplus := max Vi 0
    Vi + M.kappa*(M.theta - Vplus)*dt +
      M.sigma*Real.sqrt Vplus*Z0 i j*Real.sqrt dt

/-- The log-price grid of simulate_euler (lines 245, 252-256). -/
def eulerX (M : Heston) (dt : ℝ) (Z0 Z1 : ℕ → ℕ → ℝ) : ℕ → ℕ → ℝ
  | 0, _ => Real.log M.s
  | i+1, j =>
    let Vplus := max (eulerV M dt Z0 i j) 0
    eulerX M dt Z0 Z1 i j + (M.r - 0.5*Vplus)*dt +
      Real.sqrt Vplus*(M.rho*Z0 i j + Real.sqrt (1 - M.rho^2)*Z1 i j)*Real.sqrt dt

/-- The price grid of simulate_euler: S = exp X (line 257). -/
def eulerS (M : Heston) (dt : ℝ) (Z0 Z1 : ℕ → ℕ → ℝ) (i j : ℕ) : ℝ :=
  Real.exp (eulerX M dt Z0 Z1 i j)

/-- simulate_euler (lines 206-261) with dt = t/steps, returning the pair
(S, V). -/
def simulate_euler (M : Heston) (t : ℝ) (steps : ℕ) (Z0 Z1 : ℕ → ℕ → ℝ) :
    (ℕ → ℕ → ℝ) × (ℕ → ℕ → ℝ) :=
  (eulerS M (t/(steps : ℝ)) Z0 Z1, eulerV M (t/(steps : ℝ)) Z0)

/-- QE drift constant K0 (line 280). -/
def qeK0 (M : Heston) (dt : ℝ) : ℝ := -M.rho*M.kappa*M.theta*dt/M.sigma

/-- QE drift constant K1 (line 281). -/
def qeK1 (M : Heston) (dt : ℝ) : ℝ :=
  0.5*(M.kappa*M.rho/M.sigma - 0.5)*dt - M.rho/M.sigma

/-- QE drift constant K2 (line 282). -/
def qeK2 (M : Heston) (dt : ℝ) : ℝ :=
  0.5*(M.kappa*M.rho/M.sigma - 0.5)*dt + M.rho/M.sigma

/-- QE drift constant K3 (line 283). -/
def qeK3 (M : Heston) (dt : ℝ) : ℝ := 0.5*(1 - M.rho^2)*dt

/-- QE moment constant C1 (line 284). -/
def qeC1 (M : Heston) (dt : ℝ) : ℝ := Real.exp (-M.kappa*dt)

/-- QE moment constant C2 (line 285). -/
def qeC2 (M : Heston) (dt : ℝ) : ℝ := M.sigma^2*qeC1 M dt*(1 - qeC1 M dt)/M.kappa

/-- QE moment constant C3 (line 286). -/
def qeC3 (M : Heston) (dt : ℝ) : ℝ :=
  0.5*M.theta*M.sigma^2*(1 - qeC1 M dt)^2/M.kappa

/-- QE conditional mean m of the next variance (line 295). -/
def qeM (M : Heston) (dt Vi : ℝ) : ℝ := Vi*qeC1 M dt + M.theta*(1 - qeC1 M dt)

/-- QE conditional variance s_sq of the next variance (line 296). -/
def qeSsq (M : Heston) (dt Vi : ℝ) : ℝ := Vi*qeC2 M dt + qeC3 M dt

/-- QE dispersion ratio psi = s_sq/m^2 (line 297). -/
def qePsi (M : Heston) (dt Vi : ℝ) : ℝ := qeSsq M dt Vi/(qeM M dt Vi)^2

/-- QE quantity b_sq (lines 298-300). -/
def qeBsq (psi : ℝ) : ℝ :=
  if psi < 2 then 2/psi - 1 + Real.sqrt (max (4/psi^2 - 2/psi) 0) else 0

/-- QE quantity a = m/(1+b_sq) (line 301). -/
def qeA (m psi : ℝ) : ℝ := m/(1 + qeBsq psi)

/-- QE switching probability p (line 302). -/
def qeP (psi : ℝ) : ℝ := if 1 < psi then (psi - 1)/(psi + 1) else 0

/-- QE exponential rate beta = (1-p)/m (line 303). -/
def qeBeta (m psi : ℝ) : ℝ := (1 - qeP psi)/m

/-- The QE variance update for one step and one path (lines 304-308): the
quadratic-Gaussian branch when psi < 1.5, otherwise the Bernoulli-exponential
branch driven by the uniform draw U. -/
def qeVnext (M : Heston) (dt Vi Z U : ℝ) : ℝ :=
  if qePsi M dt Vi < 1.5 then
    qeA (qeM M dt Vi) (qePsi M dt Vi)*(Real.sqrt (qeBsq (qePsi M dt Vi)) + Z)^2
  else if U < qeP (qePsi M dt Vi) then 0
  else Real.log ((1 - qeP (qePsi M dt Vi))/(1 - U))/
    qeBeta (qeM M dt Vi) (qePsi M dt Vi)

/-- Modelled from the spec (comparison definition for claim C5): the same
update, but with the quadratic-Gaussian branch taken when psi <= 1.5 as the
claim states, instead of the strict psi < 1.5 of line 304. -/
def qeVnextSpec (M : Heston) (dt Vi Z U : ℝ) : ℝ :=
  if qePsi M dt Vi ≤ 1.5 then
    qeA (qeM M dt Vi) (qePsi M dt Vi)*(Real.sqrt (qeBsq (qePsi M dt Vi)) + Z)^2
  else if U < qeP (qePsi M dt Vi) then 0
  else Real.log ((1 - qeP (qePsi M dt Vi))/(1 - U))/
    qeBeta (qeM M dt Vi) (qePsi M dt Vi)

/-- The variance grid of simulate_qe (lines 291, 294-308). Z0 and U are the
realization grids of the normal family Z[0] and the uniform family. -/
def qeV (M : Heston) (dt : ℝ) (Z0 U : ℕ → ℕ → ℝ) : ℕ → ℕ → ℝ
  | 0, _ => M.v
  | i+1, j => qeVnext M dt (qeV M dt Z0 U i j) (Z0 i j) (U i j)

/-- The price grid of simulate_qe (lines 292, 309-311). -/
def qeS (M : Heston) (dt : ℝ) (Z0 Z1 U : ℕ → ℕ → ℝ) : ℕ → ℕ → ℝ
  | 0, _ => M.s
  | i+1, j =>
    qeS M dt Z0 Z1 U i j * Real.exp (M.r*dt + qeK0 M dt +
      qeK1 M dt*qeV M dt Z0 U i j + qeK2 M dt*qeV M dt Z0 U (i+1) j +
      Real.sqrt (qeK3 M dt*(qeV M dt Z0 U i j + qeV M dt Z0 U (i+1) j))*Z1 i j)

/-- simulate_qe (lines 263-315) with dt = t/steps, returning the pair
(S, V). -/
def simulate_qe (M : Heston) (t : ℝ) (steps : ℕ) (Z0 Z1 U : ℕ → ℕ → ℝ) :
    (ℕ → ℕ → ℝ) × (ℕ → ℕ → ℝ) :=
  (qeS M (t/(steps : ℝ)) Z0 Z1 U, qeV M (t/(steps : ℝ)) Z0 U)

/-- The bk_cf method (lines 317-342): conditional characteristic function of
the integrated variance in the Broadie-Kaya scheme. The modified Bessel
function scipy.special.iv is the external collaborator bes, taking the real
order and the complex argument. cmath.sqrt z is embedded as z to the complex
power 1/2; math.sqrt is Real.sqrt. -/
def bk_cf (bes : ℝ → ℂ → ℂ) (M : Heston) (u vprev vnext dt : ℝ) : ℂ :=
  let g : ℂ := ((M.kappa : ℂ)^2 - 2*(M.sigma : ℂ)^2*(u : ℂ)*Complex.I) ^ ((1 : ℂ)/2)
  let df : ℝ := 4*M.theta*M.kappa/M.sigma^2
  let c1 : ℝ := Real.exp (-M.kappa*dt)
  let c2 : ℂ := Complex.exp (-g*(dt : ℂ))
  g*(c2/(c1 : ℂ)) ^ ((1 : ℂ)/2)*(1 - (c1 : ℂ)) / ((M.kappa : ℂ)*(1 - c2)) *
    Complex.exp (((vprev + vnext : ℝ) : ℂ)/(M.sigma : ℂ)^2 *
      ((M.kappa : ℂ)*(1 + (c1 : ℂ))/(1 - (c1 : ℂ)) - g*(1 + c2)/(1 - c2))) *
    bes (0.5*df - 1)
      ((((vprev*vnext : ℝ) : ℂ)*c2) ^ ((1 : ℂ)/2)*4*g/((M.sigma : ℂ)^2*(1 - c2))) /
    bes (0.5*df - 1)
      ((Real.sqrt (vprev*vnext*c1)*4*M.kappa/(M.sigma^2*(1 - c1)) : ℝ) : ℂ)

/-- The conditional mean m of the integrated variance (lines 364-365),
estimated by the scipy.misc.derivative collaborator: d1 vprev vnext dt is the
oracle for the first finite-difference derivative of u to bk_cf u at 0. -/
def bkM (d1 : ℝ → ℝ → ℝ → ℂ) (vprev vnext dt : ℝ) : ℝ :=
  (d1 vprev vnext dt/Complex.I).re

/-- The conditional standard deviation s (lines 366-368); d2 is the oracle
for the second finite-difference derivative at 0. -/
def bkS (d2 : ℝ → ℝ → ℝ → ℂ) (vprev vnext dt : ℝ) : ℝ :=
  Real.sqrt (max 0 (-(d2 vprev vnext dt).re))

/-- The series fundamental frequency h = pi/(m + s*small_tail_stddev)
(line 369). -/
def bkH (d1 d2 : ℝ → ℝ → ℝ → ℂ) (vprev vnext dt sts : ℝ) : ℝ :=
  Real.pi/(bkM d1 vprev vnext dt + bkS d2 vprev vnext dt*sts)

/-- The j-th Fourier series term added inside the loop (lines 377-378). -/
def bkTerm (bes : ℝ → ℂ → ℂ) (M : Heston) (vprev vnext dt h x : ℝ) (j : ℕ) : ℝ :=
  2/Real.pi*Real.sin (h*j*x)/j*(bk_cf bes M (h*j) vprev vnext dt).re

/-- The tolerance side of the loop condition (lines 374-376): the magnitude
of bk_cf at h*j divided by j is at least pi*truncation_error/2. On line 375
the source spells the complex modulus cmath.abs, an attribute that does not
exist in the cmath module; the intended modulus is embedded. -/
def bkCond (bes : ℝ → ℂ → ℂ) (M : Heston) (vprev vnext dt h te : ℝ) (j : ℕ) : Prop :=
  Real.pi*te/2 ≤ Complex.abs (bk_cf bes M (h*j) vprev vnext dt)/j

/-- The while loop of bk_prob (lines 371-379): starting from counter j and
accumulator prob, it adds term j and increments j while j < 1000 and the
tolerance condition c j holds. -/
def bkLoop (term : ℕ → ℝ) (c : ℕ → Prop) (j : ℕ) (prob : ℝ) : ℝ :=
  if _h : j < 1000 ∧ c j then bkLoop term c (j+1) (prob + term j) else prob
termination_by 1000 - j
decreasing_by exact Nat.sub_succ_lt_self 1000 j _h.1

/-- The bk_prob method (lines 344-380): conditional distribution function of
the integrated variance, evaluated by truncated Fourier series; returns 0 for
x <= 0, and otherwise clamps the series value to [0, 1]. -/
def bk_prob (bes : ℝ → ℂ → ℂ) (d1 d2 : ℝ → ℝ → ℝ → ℂ) (M : Heston)
    (x vprev vnext dt te sts : ℝ) : ℝ :=
  if x ≤ 0 then 0
  else
    max (min (bkLoop (bkTerm bes M vprev vnext dt (bkH d1 d2 vprev vnext dt sts) x)
      (bkCond bes M vprev vnext dt (bkH d1 d2 vprev vnext dt sts) te) 1
      (bkH d1 d2 vprev vnext dt sts*x/Real.pi)) 1) 0

/-- The noncentral chi-squared scale factor of the exact scheme
(lines 434-435). -/
def exactC (M : Heston) (dt : ℝ) : ℝ :=
  M.sigma^2*(1 - Real.exp (-M.kappa*dt))/(4*M.kappa)

/-- The variance grid of simulate_exact (lines 431, 433-436): W i j is the
realization of the noncentral chi-squared draw used at step i for path j. -/
def exactV (M : Heston) (dt : ℝ) (W : ℕ → ℕ → ℝ) : ℕ → ℕ → ℝ
  | 0, _ => M.v
  | i+1, j => exactC M dt*W i j

/-- The CDF-inversion target of simulate_exact (line 426): the raw uniform
draw U0 i j multiplied by 0.9999 to avoid values too close to 1. -/
def exactU (U0 : ℕ → ℕ → ℝ) (i j : ℕ) : ℝ := U0 i j*0.9999

/-- The integrated-variance sample of simulate_exact (lines 437-451): with
x_max = (V[i,j] + V[i+1,j])*dt*10, clamp to x_max when the CDF at x_max does
not exceed the target, else invert the CDF by the scipy.optimize.brentq
collaborator (the oracle brentq f a b). -/
def exactIntV (bes : ℝ → ℂ → ℂ) (d1 d2 : ℝ → ℝ → ℝ → ℂ)
    (brentq : (ℝ → ℝ) → ℝ → ℝ → ℝ) (M : Heston) (dt te sts : ℝ)
    (W U0 : ℕ → ℕ → ℝ) (i j : ℕ) : ℝ :=
  let xmax := (exactV M dt W i j + exactV M dt W (i+1) j)*dt*10
  if bk_prob bes d1 d2 M xmax (exactV M dt W i j) (exactV M dt W (i+1) j)
      dt te sts ≤ exactU U0 i j then xmax
  else brentq (fun x => bk_prob bes d1 d2 M x (exactV M dt W i j)
    (exactV M dt W (i+1) j) dt te sts - exactU U0 i j) 0 xmax

/-- The price grid of simulate_exact (lines 430, 452-459): the stochastic
integrals int_w1 and int_w2 are recovered from the integrated variance and
the variance endpoints, and Z i j is the independent standard normal. -/
def exactS (bes : ℝ → ℂ → ℂ) (d1 d2 : ℝ → ℝ → ℝ → ℂ)
    (brentq : (ℝ → ℝ) → ℝ → ℝ → ℝ) (M : Heston) (dt te sts : ℝ)
    (W U0 Z : ℕ → ℕ → ℝ) : ℕ → ℕ → ℝ
  | 0, _ => M.s
  | i+1, j =>
    let iv := exactIntV bes d1 d2 brentq M dt te sts W U0 i j
    let w1 := (exactV M dt W (i+1) j - exactV M dt W i j -
      M.kappa*M.theta*dt + M.kappa*iv)/M.sigma
    let w2 := Z i j*Real.sqrt iv
    exactS bes d1 d2 brentq M dt te sts W U0 Z i j *
      Real.exp (M.r*dt - 0.5*iv + M.rho*w1 + Real.sqrt (1 - M.rho^2)*w2)

/-- simulate_exact (lines 382-464) with dt = t/steps, returning the pair
(S, V). -/
def simulate_exact (bes : ℝ → ℂ → ℂ) (d1 d2 : ℝ → ℝ → ℝ → ℂ)
    (brentq : (ℝ → ℝ) → ℝ → ℝ → ℝ) (M : Heston) (t : ℝ) (steps : ℕ)
    (te sts : ℝ) (W U0 Z : ℕ → ℕ → ℝ) : (ℕ → ℕ → ℝ) × (ℕ → ℕ → ℝ) :=
  (exactS bes d1 d2 brentq M (t/(steps : ℝ)) te sts W U0 Z,
    exactV M (t/(steps : ℝ)) W)

/-- Concrete parameter set from the testable-properties section of the spec,
used as a witness input. -/
def M0 : Heston := ⟨100, 0.04, 2, 0.04, 0.3, -0.7, 0⟩

/-- Concrete parameter set placing the QE dispersion ratio exactly at the
branch threshold 1.5 on the first step with dt = 1. -/
def M5 : Heston := ⟨1, 0, Real.log 2, 1, Real.sqrt (3*Real.log 2), 0, 0⟩

/-- The all-zero realization grid, used as a witness input. -/
def zeroGrid : ℕ → ℕ → ℝ := fun _ _ => 0

/-- A trivial Bessel-function oracle, used as a witness input. -/
def zeroBessel : ℝ → ℂ → ℂ := fun _ _ => 0

/-- A trivial finite-difference oracle, used as a witness input. -/
def zeroDeriv : ℝ → ℝ → ℝ → ℂ := fun _ _ _ => 0

/-- A trivial bracketing root-finder oracle returning the left endpoint, used
as a witness input. -/
def trivBrentq : (ℝ → ℝ) → ℝ → ℝ → ℝ := fun _ a _ => a

/-- Principal complex square root of the square of a positive real. -/
theorem cpow_sq_half (a : ℝ) (ha : 0 < a) :
    ((a : ℂ)^2) ^ ((1 : ℂ)/2) = (a : ℂ) := by
  have h2 : ((a : ℂ))^2 = ((a^2 : ℝ) : ℂ) := by push_cast; ring
  have hne : ((a^2 : ℝ) : ℂ) ≠ 0 := Complex.ofReal_ne_zero.mpr (by positivity)
  rw [h2, Complex.cpow_def_of_ne_zero hne, ← Complex.ofReal_log (sq_nonneg a),
    Real.log_pow]
  have h3 : ((((2 : ℕ)*Real.log a : ℝ)) : ℂ)*((1 : ℂ)/2) = ((Real.log a : ℝ) : ℂ) := by
    push_cast; ring
  rw [h3, ← Complex.ofReal_exp, Real.exp_log ha]

/-- Claim C1, counterexample: the input s = -1 violates the range constraints
and the spec-modelled checked constructor rejects it, yet the source
constructor produces an instance, storing the out-of-range value verbatim. -/
theorem heston_no_validation_counterexample :
    ¬ hestonParamsValid ⟨-1, 0, 1, 1, 1, 0, 0⟩ ∧
      mkHestonChecked (-1) 0 1 1 1 0 0 = none ∧
      (Heston.mk (-1) 0 1 1 1 0 0).s = -1 := by
  have hnv : ¬ hestonParamsValid ⟨-1, 0, 1, 1, 1, 0, 0⟩ := by
    norm_num [hestonParamsValid]
  exact ⟨hnv, by rw [mkHestonChecked, if_neg hnv], rfl⟩

/-- Claim C1, amended: construction never fails and never clamps; the
constructor stores every field verbatim for arbitrary inputs, and the
documented range constraints are not enforced at construction time. -/
theorem heston_mk_unvalidated (s v kappa theta sigma rho r : ℝ) :
    (Heston.mk s v kappa theta sigma rho r).s = s ∧
    (Heston.mk s v kappa theta sigma rho r).v = v ∧
    (Heston.mk s v kappa theta sigma rho r).kappa = kappa ∧
    (Heston.mk s v kappa theta sigma rho r).theta = theta ∧
    (Heston.mk s v kappa theta sigma rho r).sigma = sigma ∧
    (Heston.mk s v kappa theta sigma rho r).rho = rho ∧
    (Heston.mk s v kappa theta sigma rho r).r = r :=
  ⟨rfl, rfl, rfl, rfl, rfl, rfl, rfl⟩

/-- Claim C4, counterexample: a quadrature outcome with residual error
estimate 10^6 — converged to no reasonable tolerance — yields exactly the
same plain value 1/pi as a fully converged outcome, while the spec-modelled
checked version surfaces the error; the residual is never reported. -/
theorem quad_error_ignored_counterexample :
    call_price_scalar M0 1 100 ⟨1, 1000000⟩ = 1/Real.pi ∧
      call_price_scalar M0 1 100 ⟨1, 0⟩ = 1/Real.pi ∧
      callPriceChecked M0 1 100 0.001 ⟨1, 1000000⟩ = Except.error 1000000 := by
  refine ⟨?_, ?_, ?_⟩
  · norm_num [call_price_scalar, M0]
  · norm_num [call_price_scalar, M0]
  · rw [callPriceChecked, if_neg (by norm_num)]

/-- Claim C4, amended: the call-price computation depends only on the value
component of the quadrature outcome; the residual error estimate is
discarded, so the value of a non-converged integral is returned silently and
no computation error is ever surfaced. -/
theorem quad_abserr_ignored (M : Heston) (t k y e e' : ℝ) :
    call_price_scalar M t k ⟨y, e⟩ = call_price_scalar M t k ⟨y, e'⟩ := rfl

/-- Claim C9, counterexample: the degenerate input t = 0 is not rejected; the
pricing routine silently returns the value 2/pi computed from the quadrature
outcome (2, 0) instead of failing with a validation error. -/
theorem degenerate_input_counterexample :
    call_price_scalar M0 0 100 ⟨2, 0⟩ = 2/Real.pi := by
  norm_num [call_price_scalar, M0]
  ring

/-- Claim C9, amended: degenerate numeric inputs are not validated; at t = 0
with any strike k <= 0 the pricing routine returns the plain formula value
built from the quadrature outcome. (With steps = 0 the simulators fail with
an unintended ZeroDivisionError from dt = t/steps, not a validation error.) -/
theorem degenerate_inputs_unvalidated (M : Heston) (k : ℝ) (q : QuadResult)
    (_hk : k ≤ 0) :
    call_price_scalar M 0 k q = 0.5*(M.s - k) + 1/Real.pi*q.val := by
  simp [call_price_scalar]

/-- Witness for the amended claim C9 at strike k = -5. -/
theorem degenerate_inputs_unvalidated_witness :
    (-5 : ℝ) ≤ 0 ∧
      call_price_scalar M0 0 (-5) ⟨2, 0⟩ = 0.5*(M0.s - (-5)) + 1/Real.pi*(2 : ℝ) :=
  ⟨by norm_num, degenerate_inputs_unvalidated M0 (-5) ⟨2, 0⟩ (by norm_num)⟩

/-- Claim C8: for every valid parameter set the characteristic function of
the log-price evaluated at frequency u = 0 equals exactly 1, for all t >= 0. -/
theorem heston_cf_at_zero (M : Heston) (hM : hestonParamsValid M) (t : ℝ)
    (_ht : 0 ≤ t) :
    heston_cf M.s M.v M.kappa M.theta M.sigma M.rho 0 t = 1 := by
  obtain ⟨hs, hv, hκ, hθ, hσ, hρ1, hρ2⟩ := hM
  have hd : (((M.rho : ℂ)*(M.sigma : ℂ)*(0 : ℂ)*Complex.I - (M.kappa : ℂ))^2 +
      (M.sigma : ℂ)^2*((0 : ℂ)*Complex.I + (0 : ℂ)^2)) ^ ((1 : ℂ)/2) =
      (M.kappa : ℂ) := by
    have he : ((M.rho : ℂ)*(M.sigma : ℂ)*(0 : ℂ)*Complex.I - (M.kappa : ℂ))^2 +
        (M.sigma : ℂ)^2*((0 : ℂ)*Complex.I + (0 : ℂ)^2) = ((M.kappa : ℂ))^2 := by
      ring
    rw [he]
    exact cpow_sq_half M.kappa hκ
  simp only [heston_cf]
  rw [hd]
  have hg : (M.rho : ℂ)*(M.sigma : ℂ)*(0 : ℂ)*Complex.I - (M.kappa : ℂ) +
      (M.kappa : ℂ) = 0 := by ring
  rw [hg, zero_div]
  simp [Complex.log_one, Complex.exp_zero]

/-- Witness for claim C8 at the reference parameter set and t = 1. -/
theorem heston_cf_at_zero_witness :
    hestonParamsValid M0 ∧ (0 : ℝ) ≤ 1 ∧
      heston_cf M0.s M0.v M0.kappa M0.theta M0.sigma M0.rho 0 1 = 1 :=
  ⟨by norm_num [hestonParamsValid, M0], by norm_num,
    heston_cf_at_zero M0 (by norm_num [hestonParamsValid, M0]) 1 (by norm_num)⟩

/-- Claim C2: every scheme starts its grids exactly at the initial state:
S[0,j] = s and, where the variance grid is produced, V[0,j] = v, for every
path index j, every horizon t > 0 and every steps >= 1 (under real-number
semantics; for the Euler scheme S[0,j] = exp (log s)). -/
theorem initial_conditions (M : Heston) (hs : 0 < M.s) (t : ℝ) (steps : ℕ)
    (_ht : 0 < t) (_hsteps : 1 ≤ steps) (Z0 Z1 U W U0 Z : ℕ → ℕ → ℝ)
    (bes : ℝ → ℂ → ℂ) (d1 d2 : ℝ → ℝ → ℝ → ℂ)
    (brentq : (ℝ → ℝ) → ℝ → ℝ → ℝ) (te sts : ℝ) (j : ℕ) :
    (simulate_euler M t steps Z0 Z1).1 0 j = M.s ∧
    (simulate_euler M t steps Z0 Z1).2 0 j = M.v ∧
    (simulate_qe M t steps Z0 Z1 U).1 0 j = M.s ∧
    (simulate_qe M t steps Z0 Z1 U).2 0 j = M.v ∧
    (simulate_exact bes d1 d2 brentq M t steps te sts W U0 Z).1 0 j = M.s ∧
    (simulate_exact bes d1 d2 brentq M t steps te sts W U0 Z).2 0 j = M.v := by
  refine ⟨?_, rfl, rfl, rfl, rfl, rfl⟩
  simp [simulate_euler, eulerS, eulerX, Real.exp_log hs]

/-- Witness for claim C2 at the reference parameters, t = 1, steps = 1, zero
draws, trivial oracles, path 0. -/
theorem initial_conditions_witness :
    0 < M0.s ∧ 0 < (1 : ℝ) ∧ 1 ≤ 1 ∧
      ((simulate_euler M0 1 1 zeroGrid zeroGrid).1 0 0 = M0.s ∧
       (simulate_euler M0 1 1 zeroGrid zeroGrid).2 0 0 = M0.v ∧
       (simulate_qe M0 1 1 zeroGrid zeroGrid zeroGrid).1 0 0 = M0.s ∧
       (simulate_qe M0 1 1 zeroGrid zeroGrid zeroGrid).2 0 0 = M0.v ∧
       (simulate_exact zeroBessel zeroDeriv zeroDeriv trivBrentq M0 1 1 1 5
         zeroGrid zeroGrid zeroGrid).1 0 0 = M0.s ∧
       (simulate_exact zeroBessel zeroDeriv zeroDeriv trivBrentq M0 1 1 1 5
         zeroGrid zeroGrid zeroGrid).2 0 0 = M0.v) :=
  ⟨by norm_num [M0], by norm_num, le_refl 1,
    initial_conditions M0 (by norm_num [M0]) 1 1 (by norm_num) (le_refl 1)
      zeroGrid zeroGrid zeroGrid zeroGrid zeroGrid zeroGrid zeroBessel
      zeroDeriv zeroDeriv trivBrentq 1 5 0⟩

/-- Claim C10: the exact scheme multiplies every raw uniform draw by 0.9999
before using it as the CDF-inversion target, so each target lies in
[0, 0.9999) and a quantile at or above the 0.9999 level is never requested
from the root-finder. -/
theorem inversion_target_bounds (U0 : ℕ → ℕ → ℝ) (i j : ℕ)
    (h0 : 0 ≤ U0 i j) (h1 : U0 i j < 1) :
    0 ≤ exactU U0 i j ∧ exactU U0 i j < 0.9999 := by
  refine ⟨?_, ?_⟩ <;> simp only [exactU]
  · exact mul_nonneg h0 (by norm_num)
  · nlinarith

/-- Witness for claim C10 with the zero uniform draw at step 0, path 0. -/
theorem inversion_target_bounds_witness :
    (0 : ℝ) ≤ zeroGrid 0 0 ∧ zeroGrid 0 0 < 1 ∧
      (0 ≤ exactU zeroGrid 0 0 ∧ exactU zeroGrid 0 0 < 0.9999) :=
  ⟨by norm_num [zeroGrid], by norm_num [zeroGrid],
    inversion_target_bounds zeroGrid 0 0 (by norm_num [zeroGrid])
      (by norm_num [zeroGrid])⟩

/-- Claim C5, counterexample: at the parameter set M5 with dt = 1 the
dispersion ratio of the first step is exactly psi = 1.5. The source tests
psi < 1.5 (line 304) and therefore takes the Bernoulli-exponential branch,
producing V[1,0] = 0 with draws Z = 0, U = 0, while the update stated by the
claim (quadratic-Gaussian branch whenever psi <= 1.5) produces 1/4. -/
theorem qe_threshold_counterexample :
    qePsi M5 1 0 = 1.5 ∧
    qeV M5 1 zeroGrid zeroGrid 1 0 = 0 ∧
    qeVnextSpec M5 1 0 0 0 = 1/4 ∧
    qeVnextSpec M5 1 0 0 0 ≠ qeV M5 1 zeroGrid zeroGrid 1 0 := by
  have hL : 0 < Real.log 2 := Real.log_pos (by norm_num)
  have hLne : Real.log 2 ≠ 0 := ne_of_gt hL
  have hσ2 : M5.sigma^2 = 3*Real.log 2 := by
    rw [show M5.sigma = Real.sqrt (3*Real.log 2) from rfl]
    exact Real.sq_sqrt (by positivity)
  have hc1 : qeC1 M5 1 = 1/2 := by
    rw [qeC1, show M5.kappa = Real.log 2 from rfl,
      show -Real.log 2*(1:ℝ) = -Real.log 2 by ring,
      Real.exp_neg, Real.exp_log (by norm_num : (0:ℝ) < 2)]
    norm_num
  have hm : qeM M5 1 0 = 1/2 := by
    rw [qeM, hc1, show M5.theta = (1:ℝ) from rfl]
    norm_num
  have hC3 : qeC3 M5 1 = 3/8 := by
    rw [qeC3, hc1, hσ2, show M5.theta = (1:ℝ) from rfl,
      show M5.kappa = Real.log 2 from rfl]
    field_simp
    ring
  have hssq : qeSsq M5 1 0 = 3/8 := by
    rw [qeSsq, hC3]
    ring
  have hpsi : qePsi M5 1 0 = 1.5 := by
    rw [qePsi, hssq, hm]
    norm_num
  have hp : qeP (qePsi M5 1 0) = 1/5 := by
    rw [hpsi, qeP, if_pos (by norm_num : (1:ℝ) < 1.5)]
    norm_num
  have hexp : qeVnext M5 1 0 0 0 = 0 := by
    rw [qeVnext, if_neg (by rw [hpsi]; norm_num),
      if_pos (by rw [hp]; norm_num : (0:ℝ) < qeP (qePsi M5 1 0))]
  have hgrid : qeV M5 1 zeroGrid zeroGrid 1 0 = 0 := by
    simp only [qeV, zeroGrid]
    show qeVnext M5 1 0 0 0 = 0
    exact hexp
  have hbsq : qeBsq (qePsi M5 1 0) = 1 := by
    rw [hpsi, qeBsq, if_pos (by norm_num : (1.5:ℝ) < 2),
      show (4/(1.5:ℝ)^2 - 2/1.5) = (2/3 : ℝ)^2 by norm_num,
      max_eq_left (by positivity : (0:ℝ) ≤ (2/3:ℝ)^2),
      Real.sqrt_sq (by norm_num : (0:ℝ) ≤ 2/3)]
    norm_num
  have hspec : qeVnextSpec M5 1 0 0 0 = 1/4 := by
    rw [qeVnextSpec, if_pos (le_of_eq hpsi), qeA, hbsq, hm, Real.sqrt_one]
    norm_num
  exact ⟨hpsi, hgrid, hspec, by rw [hspec, hgrid]; norm_num⟩

/-- Claim C5, amended: the QE variance update branches strictly at the fixed
threshold 1.5: for each step and path, the quadratic-Gaussian value
a(sqrt b_sq + Z)^2 is produced when psi < 1.5, and when psi >= 1.5 the value
is 0 if U < p = (psi-1)/(psi+1) and log((1-p)/(1-U))/beta with
beta = (1-p)/m otherwise. -/
theorem qe_branch_rule (M : Heston) (dt : ℝ) (Z0 U : ℕ → ℕ → ℝ) (i j : ℕ) :
    qeV M dt Z0 U (i+1) j =
      if qePsi M dt (qeV M dt Z0 U i j) < 1.5 then
        qeM M dt (qeV M dt Z0 U i j)/
            (1 + (2/qePsi M dt (qeV M dt Z0 U i j) - 1 +
              Real.sqrt (max (4/qePsi M dt (qeV M dt Z0 U i j)^2 -
                2/qePsi M dt (qeV M dt Z0 U i j)) 0)))*
          (Real.sqrt (2/qePsi M dt (qeV M dt Z0 U i j) - 1 +
              Real.sqrt (max (4/qePsi M dt (qeV M dt Z0 U i j)^2 -
                2/qePsi M dt (qeV M dt Z0 U i j)) 0)) + Z0 i j)^2
      else if U i j < (qePsi M dt (qeV M dt Z0 U i j) - 1)/
          (qePsi M dt (qeV M dt Z0 U i j) + 1) then 0
      else Real.log ((1 - (qePsi M dt (qeV M dt Z0 U i j) - 1)/
            (qePsi M dt (qeV M dt Z0 U i j) + 1))/(1 - U i j))/
          ((1 - (qePsi M dt (qeV M dt Z0 U i j) - 1)/
            (qePsi M dt (qeV M dt Z0 U i j) + 1))/qeM M dt (qeV M dt Z0 U i j)) := by
  simp only [qeV, qeVnext]
  by_cases hlt : qePsi M dt (qeV M dt Z0 U i j) < 1.5
  · rw [if_pos hlt, if_pos hlt, qeA, qeBsq,
      if_pos (by linarith : qePsi M dt (qeV M dt Z0 U i j) < 2)]
  · rw [if_neg hlt, if_neg hlt]
    have h15 : (1.5:ℝ) ≤ qePsi M dt (qeV M dt Z0 U i j) := not_lt.mp hlt
    have hp : qeP (qePsi M dt (qeV M dt Z0 U i j)) =
        (qePsi M dt (qeV M dt Z0 U i j) - 1)/(qePsi M dt (qeV M dt Z0 U i j) + 1) := by
      rw [qeP, if_pos (by linarith)]
    rw [qeBeta, hp]

/-- Nonnegativity of a single QE variance update, for valid parameters, a
positive step size and a uniform draw in [0,1). -/
theorem qeVnext_nonneg (M : Heston) (dt : ℝ) (hdt : 0 < dt)
    (hθ : 0 < M.theta) (hκ : 0 < M.kappa) (hσ : 0 < M.sigma)
    (Vi : ℝ) (hVi : 0 ≤ Vi) (Z U : ℝ) (_hU0 : 0 ≤ U) (hU1 : U < 1) :
    0 ≤ qeVnext M dt Vi Z U := by
  have hc1pos : 0 < qeC1 M dt := Real.exp_pos _
  have hc1lt : qeC1 M dt < 1 := by
    rw [qeC1]
    have hneg : -M.kappa*dt < 0 := by nlinarith
    calc Real.exp (-M.kappa*dt) < Real.exp 0 := Real.exp_lt_exp.mpr hneg
    _ = 1 := Real.exp_zero
  have hm : 0 < qeM M dt Vi := by
    rw [qeM]
    have h1 : 0 ≤ Vi*qeC1 M dt := mul_nonneg hVi hc1pos.le
    have h2 : 0 < M.theta*(1 - qeC1 M dt) := mul_pos hθ (by linarith)
    linarith
  have hC2 : 0 < qeC2 M dt := by
    rw [qeC2]
    have h1 : 0 < M.sigma^2*qeC1 M dt*(1 - qeC1 M dt) := by
      apply mul_pos (mul_pos (pow_pos hσ 2) hc1pos)
      linarith
    exact div_pos h1 hκ
  have hC3 : 0 < qeC3 M dt := by
    rw [qeC3]
    have h1 : 0 < 0.5*M.theta*M.sigma^2*(1 - qeC1 M dt)^2 := by
      apply mul_pos (mul_pos (mul_pos (by norm_num) hθ) (pow_pos hσ 2))
      exact pow_pos (by linarith) 2
    exact div_pos h1 hκ
  have hssq : 0 < qeSsq M dt Vi := by
    rw [qeSsq]
    have h1 := mul_nonneg hVi hC2.le
    linarith
  have hpsi : 0 < qePsi M dt Vi := div_pos hssq (pow_pos hm 2)
  rw [qeVnext]
  by_cases hlt : qePsi M dt Vi < 1.5
  · rw [if_pos hlt]
    have hbsq : 0 ≤ qeBsq (qePsi M dt Vi) := by
      rw [qeBsq, if_pos (by linarith : qePsi M dt Vi < 2)]
      have h1 : 1 ≤ 2/qePsi M dt Vi := by
        rw [le_div_iff₀ hpsi]
        linarith
      have h2 : 0 ≤ Real.sqrt (max (4/qePsi M dt Vi^2 - 2/qePsi M dt Vi) 0) :=
        Real.sqrt_nonneg _
      linarith
    have ha : 0 ≤ qeA (qeM M dt Vi) (qePsi M dt Vi) := by
      rw [qeA]
      exact div_nonneg hm.le (by linarith)
    exact mul_nonneg ha (sq_nonneg _)
  · rw [if_neg hlt]
    have h15 : (1.5:ℝ) ≤ qePsi M dt Vi := not_lt.mp hlt
    have hp : qeP (qePsi M dt Vi) = (qePsi M dt Vi - 1)/(qePsi M dt Vi + 1) := by
      rw [qeP, if_pos (by linarith)]
    have hp1 : qeP (qePsi M dt Vi) < 1 := by
      rw [hp, div_lt_one (by linarith)]
      linarith
    by_cases hUp : U < qeP (qePsi M dt Vi)
    · rw [if_pos hUp]
    · rw [if_neg hUp]
      have hUge : qeP (qePsi M dt Vi) ≤ U := not_lt.mp hUp
      have h1U : 0 < 1 - U := by linarith
      have hfrac : 1 ≤ (1 - qeP (qePsi M dt Vi))/(1 - U) := by
        rw [le_div_iff₀ h1U]
        linarith
      have hlog : 0 ≤ Real.log ((1 - qeP (qePsi M dt Vi))/(1 - U)) :=
        Real.log_nonneg hfrac
      have hbeta : 0 < qeBeta (qeM M dt Vi) (qePsi M dt Vi) := by
        rw [qeBeta]
        apply div_pos _ hm
        linarith
      exact div_nonneg hlog hbeta.le

/-- Claim C3: in the QE and exact schemes every entry of the variance grid is
nonnegative, for all time indices, all path indices and all realizations of
the normal draws, the uniform draws (which lie in [0,1)) and the noncentral
chi-squared draws (which are nonnegative). -/
theorem variance_nonneg (M : Heston) (hM : hestonParamsValid M)
    (t : ℝ) (steps : ℕ) (ht : 0 < t) (hsteps : 1 ≤ steps)
    (Z0 U W : ℕ → ℕ → ℝ)
    (hU : ∀ i j, 0 ≤ U i j ∧ U i j < 1) (hW : ∀ i j, 0 ≤ W i j) :
    (∀ i j, 0 ≤ qeV M (t/(steps : ℝ)) Z0 U i j) ∧
    (∀ i j, 0 ≤ exactV M (t/(steps : ℝ)) W i j) := by
  obtain ⟨hs, hv, hκ, hθ, hσ, hρ1, hρ2⟩ := hM
  have hstepspos : (0:ℝ) < (steps : ℝ) := by
    exact_mod_cast Nat.lt_of_lt_of_le Nat.zero_lt_one hsteps
  have hdt : 0 < t/(steps : ℝ) := div_pos ht hstepspos
  constructor
  · intro i j
    induction i with
    | zero => simpa [qeV] using hv
    | succ i ih =>
      simp only [qeV]
      exact qeVnext_nonneg M _ hdt hθ hκ hσ _ ih _ _ (hU i j).1 (hU i j).2
  · intro i j
    cases i with
    | zero => simpa [exactV] using hv
    | succ i =>
      simp only [exactV]
      apply mul_nonneg _ (hW i j)
      rw [exactC]
      have h1 : Real.exp (-M.kappa*(t/(steps : ℝ))) ≤ 1 := by
        have hneg : -M.kappa*(t/(steps : ℝ)) ≤ 0 := by nlinarith
        calc Real.exp (-M.kappa*(t/(steps : ℝ))) ≤ Real.exp 0 :=
          Real.exp_le_exp.mpr hneg
        _ = 1 := Real.exp_zero
      apply div_nonneg
      · apply mul_nonneg (sq_nonneg _)
        linarith
      · linarith

/-- Witness for claim C3 at the reference parameters, t = 1, steps = 1 and
zero draws, where the uniform and chi-squared realizations are in range. -/
theorem variance_nonneg_witness :
    hestonParamsValid M0 ∧ (0:ℝ) < 1 ∧ 1 ≤ 1 ∧
      (∀ i j, 0 ≤ zeroGrid i j ∧ zeroGrid i j < 1) ∧
      (∀ i j, 0 ≤ zeroGrid i j) ∧
      ((∀ i j, 0 ≤ qeV M0 ((1:ℝ)/((1:ℕ) : ℝ)) zeroGrid zeroGrid i j) ∧
       (∀ i j, 0 ≤ exactV M0 ((1:ℝ)/((1:ℕ) : ℝ)) zeroGrid i j)) :=
  ⟨by norm_num [hestonParamsValid, M0], by norm_num, le_refl 1,
    fun i j => ⟨by norm_num [zeroGrid], by norm_num [zeroGrid]⟩,
    fun i j => by norm_num [zeroGrid],
    variance_nonneg M0 (by norm_num [hestonParamsValid, M0]) 1 1 (by norm_num)
      (le_refl 1) zeroGrid zeroGrid zeroGrid
      (fun i j => ⟨by norm_num [zeroGrid], by norm_num [zeroGrid]⟩)
      (fun i j => by norm_num [zeroGrid])⟩

/-- The while loop of bk_prob performs at most 1000 - j further iterations
from counter j: it returns the accumulator plus the terms of a finite window
of counters, each one below 1000 and satisfying the tolerance condition. -/
theorem bkLoop_spec (term : ℕ → ℝ) (c : ℕ → Prop) :
    ∀ k j prob, 1000 - j ≤ k →
      ∃ n, (n = 0 ∨ j + n ≤ 1000) ∧
        bkLoop term c j prob = prob + ∑ i in Finset.Ico j (j+n), term i ∧
        ∀ i ∈ Finset.Ico j (j+n), i < 1000 ∧ c i := by
  intro k
  induction k with
  | zero =>
    intro j prob hk
    refine ⟨0, Or.inl rfl, ?_, ?_⟩
    · rw [bkLoop, dif_neg]
      · simp
      · rintro ⟨h1, -⟩
        omega
    · intro i hi
      rw [Finset.mem_Ico] at hi
      omega
  | succ k ih =>
    intro j prob hk
    by_cases hc : j < 1000 ∧ c j
    · obtain ⟨n, hcap, heq, hmem⟩ := ih (j+1) (prob + term j) (by omega)
      refine ⟨n+1, Or.inr (by rcases hcap with h0 | hle <;> omega), ?_, ?_⟩
      · rw [bkLoop, dif_pos hc, heq,
          Finset.sum_eq_sum_Ico_succ_bot (by omega : j < j + (n+1)),
          show j + (n+1) = (j+1) + n by omega]
        ring
      · intro i hi
        rw [Finset.mem_Ico] at hi
        by_cases hij : i = j
        · exact hij ▸ hc
        · apply hmem
          rw [Finset.mem_Ico]
          omega
    · refine ⟨0, Or.inl rfl, ?_, ?_⟩
      · rw [bkLoop, dif_neg hc]
        simp
      · intro i hi
        rw [Finset.mem_Ico] at hi
        omega

/-- Claim C6, on the intended semantics of lines 370-380 (the source line 375
spells the complex modulus as cmath.abs, an attribute the cmath module does
not have, so at runtime the loop raises AttributeError instead of iterating;
the embedding uses the intended modulus): for every x > 0 the Fourier-series
evaluation terminates with at most 999 added terms; every added term has
counter below 1000 and satisfies the tolerance rule, and bk_prob returns the
clamped partial sum. -/
theorem bk_prob_series_cap (bes : ℝ → ℂ → ℂ) (d1 d2 : ℝ → ℝ → ℝ → ℂ)
    (M : Heston) (x vprev vnext dt te sts : ℝ) (hx : 0 < x) :
    ∃ n, n ≤ 999 ∧
      bk_prob bes d1 d2 M x vprev vnext dt te sts =
        max (min (bkH d1 d2 vprev vnext dt sts*x/Real.pi +
          ∑ i in Finset.Ico 1 (1+n),
            bkTerm bes M vprev vnext dt (bkH d1 d2 vprev vnext dt sts) x i) 1) 0 ∧
      ∀ i ∈ Finset.Ico 1 (1+n), i < 1000 ∧
        bkCond bes M vprev vnext dt (bkH d1 d2 vprev vnext dt sts) te i := by
  obtain ⟨n, hcap, heq, hmem⟩ := bkLoop_spec
    (bkTerm bes M vprev vnext dt (bkH d1 d2 vprev vnext dt sts) x)
    (bkCond bes M vprev vnext dt (bkH d1 d2 vprev vnext dt sts) te)
    1000 1 (bkH d1 d2 vprev vnext dt sts*x/Real.pi) (by omega)
  refine ⟨n, by rcases hcap with h0 | hle <;> omega, ?_, hmem⟩
  rw [bk_prob, if_neg (not_le.mpr hx), heq]

/-- Witness for claim C6 at the reference parameters, x = 1, endpoint
variances 0.04, dt = 1, tolerance 0.00001, tail width 5, trivial oracles. -/
theorem bk_prob_series_cap_witness :
    (0:ℝ) < 1 ∧
      ∃ n, n ≤ 999 ∧
        bk_prob zeroBessel zeroDeriv zeroDeriv M0 1 0.04 0.04 1 0.00001 5 =
          max (min (bkH zeroDeriv zeroDeriv 0.04 0.04 1 5*1/Real.pi +
            ∑ i in Finset.Ico 1 (1+n),
              bkTerm zeroBessel M0 0.04 0.04 1
                (bkH zeroDeriv zeroDeriv 0.04 0.04 1 5) 1 i) 1) 0 ∧
        ∀ i ∈ Finset.Ico 1 (1+n), i < 1000 ∧
          bkCond zeroBessel M0 0.04 0.04 1
            (bkH zeroDeriv zeroDeriv 0.04 0.04 1 5) 0.00001 i :=
  ⟨by norm_num, bk_prob_series_cap zeroBessel zeroDeriv zeroDeriv M0
    1 0.04 0.04 1 0.00001 5 (by norm_num)⟩

/-- Claim C7, on the intended semantics of lines 441-451 (the CDF evaluation
itself crashes at runtime, which is claim C6): with
x_max = (V[i,j]+V[i+1,j])*dt*10, the exact scheme clamps the
integrated-variance sample to x_max whenever the conditional CDF at x_max
does not exceed the inversion target — a policy, not an error — and
otherwise asks the bracketing root-finder for the root of F(x) = U on
[0, x_max]; for any root-finder respecting its bracket the sample stays in
[0, x_max]. -/
theorem exact_tail_fallback (bes : ℝ → ℂ → ℂ) (d1 d2 : ℝ → ℝ → ℝ → ℂ)
    (brentq : (ℝ → ℝ) → ℝ → ℝ → ℝ)
    (hbr : ∀ f a b, a ≤ b → a ≤ brentq f a b ∧ brentq f a b ≤ b)
    (M : Heston) (dt te sts : ℝ) (hdt : 0 ≤ dt) (W U0 : ℕ → ℕ → ℝ)
    (hV : ∀ i j, 0 ≤ exactV M dt W i j) (i j : ℕ) :
    (bk_prob bes d1 d2 M ((exactV M dt W i j + exactV M dt W (i+1) j)*dt*10)
        (exactV M dt W i j) (exactV M dt W (i+1) j) dt te sts ≤ exactU U0 i j →
      exactIntV bes d1 d2 brentq M dt te sts W U0 i j =
        (exactV M dt W i j + exactV M dt W (i+1) j)*dt*10) ∧
    (exactU U0 i j < bk_prob bes d1 d2 M
        ((exactV M dt W i j + exactV M dt W (i+1) j)*dt*10)
        (exactV M dt W i j) (exactV M dt W (i+1) j) dt te sts →
      exactIntV bes d1 d2 brentq M dt te sts W U0 i j =
        brentq (fun x => bk_prob bes d1 d2 M x (exactV M dt W i j)
          (exactV M dt W (i+1) j) dt te sts - exactU U0 i j) 0
          ((exactV M dt W i j + exactV M dt W (i+1) j)*dt*10)) ∧
    0 ≤ exactIntV bes d1 d2 brentq M dt te sts W U0 i j ∧
    exactIntV bes d1 d2 brentq M dt te sts W U0 i j ≤
      (exactV M dt W i j + exactV M dt W (i+1) j)*dt*10 := by
  have hxmax : 0 ≤ (exactV M dt W i j + exactV M dt W (i+1) j)*dt*10 :=
    mul_nonneg (mul_nonneg (add_nonneg (hV i j) (hV (i+1) j)) hdt) (by norm_num)
  simp only [exactIntV]
  by_cases hle : bk_prob bes d1 d2 M
      ((exactV M dt W i j + exactV M dt W (i+1) j)*dt*10)
      (exactV M dt W i j) (exactV M dt W (i+1) j) dt te sts ≤ exactU U0 i j
  · rw [if_pos hle]
    exact ⟨fun _ => rfl, fun hcontra => absurd hle (not_le.mpr hcontra),
      hxmax, le_refl _⟩
  · rw [if_neg hle]
    obtain ⟨hb0, hb1⟩ := hbr (fun x => bk_prob bes d1 d2 M x (exactV M dt W i j)
      (exactV M dt W (i+1) j) dt te sts - exactU U0 i j) 0
      ((exactV M dt W i j + exactV M dt W (i+1) j)*dt*10) hxmax
    exact ⟨fun h => absurd h hle, fun _ => rfl, hb0, hb1⟩

/-- Witness for claim C7 at the reference parameters with dt = 1, zero draws
and the left-endpoint root-finder oracle, at step 0, path 0. -/
theorem exact_tail_fallback_witness :
    (∀ f a b, a ≤ b → a ≤ trivBrentq f a b ∧ trivBrentq f a b ≤ b) ∧
    (0:ℝ) ≤ 1 ∧
    (∀ i j, 0 ≤ exactV M0 1 zeroGrid i j) ∧
    ((bk_prob zeroBessel zeroDeriv zeroDeriv M0
        ((exactV M0 1 zeroGrid 0 0 + exactV M0 1 zeroGrid 1 0)*1*10)
        (exactV M0 1 zeroGrid 0 0) (exactV M0 1 zeroGrid 1 0) 1 0.00001 5 ≤
          exactU zeroGrid 0 0 →
      exactIntV zeroBessel zeroDeriv zeroDeriv trivBrentq M0 1 0.00001 5
          zeroGrid zeroGrid 0 0 =
        (exactV M0 1 zeroGrid 0 0 + exactV M0 1 zeroGrid 1 0)*1*10) ∧
    (exactU zeroGrid 0 0 < bk_prob zeroBessel zeroDeriv zeroDeriv M0
        ((exactV M0 1 zeroGrid 0 0 + exactV M0 1 zeroGrid 1 0)*1*10)
        (exactV M0 1 zeroGrid 0 0) (exactV M0 1 zeroGrid 1 0) 1 0.00001 5 →
      exactIntV zeroBessel zeroDeriv zeroDeriv trivBrentq M0 1 0.00001 5
          zeroGrid zeroGrid 0 0 =
        trivBrentq (fun x => bk_prob zeroBessel zeroDeriv zeroDeriv M0 x
          (exactV M0 1 zeroGrid 0 0) (exactV M0 1 zeroGrid 1 0) 1 0.00001 5 -
            exactU zeroGrid 0 0) 0
          ((exactV M0 1 zeroGrid 0 0 + exactV M0 1 zeroGrid 1 0)*1*10)) ∧
    0 ≤ exactIntV zeroBessel zeroDeriv zeroDeriv trivBrentq M0 1 0.00001 5
        zeroGrid zeroGrid 0 0 ∧
    exactIntV zeroBessel zeroDeriv zeroDeriv trivBrentq M0 1 0.00001 5
        zeroGrid zeroGrid 0 0 ≤
      (exactV M0 1 zeroGrid 0 0 + exactV M0 1 zeroGrid 1 0)*1*10) :=
  ⟨fun _f a _b hab => ⟨le_refl a, hab⟩, by norm_num,
    fun i j => by cases i <;> norm_num [exactV, zeroGrid, M0],
    exact_tail_fallback zeroBessel zeroDeriv zeroDeriv trivBrentq
      (fun _f a _b hab => ⟨le_refl a, hab⟩) M0 1 0.00001 5 (by norm_num)
      zeroGrid zeroGrid
      (fun i j => by cases i <;> norm_num [exactV, zeroGrid, M0])
      0 0⟩
